import Mathlib

/-!
Shallow embedding of the statistical core of the climate-data-analyzer
repository: `src/analysis/anomaly_detection.py` (class `AnomalyDetector`)
and `src/analysis/trend_analysis.py` (class `TrendAnalyzer`).

Numeric values are embedded as rationals (`ℚ`) where the Python code does
exact-looking float arithmetic, and as reals (`ℝ`) where the code takes
square roots (z-scores, Mann-Kendall z statistic) or evaluates the normal
CDF.  IEEE division by zero with a positive numerator (the only form that
the IQR detector can reach) is embedded as `⊤ : WithTop ℚ` (= +infinity).
Fallible operations (NumPy raising on empty input, NaN poisoning a result,
broadcast errors) are embedded as `Option`.
-/

namespace ClimateCore

/-- NumPy sorts data before computing percentiles/medians; we embed the sort
as `List.insertionSort` (any sort yields the same sorted list). -/
def sortQ (l : List ℚ) : List ℚ := l.insertionSort (· ≤ ·)

/-- `np.percentile(data, q)` with the default linear interpolation:
position `pos = q/100 * (n-1)`, `i = ⌊pos⌋`, `γ = pos - i`, and the result
interpolates `s[i]` and `s[i+1]` of the sorted data (when `i+1` is out of
range, `γ = 0` for the quartile arguments used here, so the `getD` default
`s[i]` is never weighted). -/
def percentile (data : List ℚ) (q : ℚ) : ℚ :=
  let s := sortQ data
  let n := data.length
  let pos : ℚ := q * ((n : ℚ) - 1) / 100
  let i : ℕ := ⌊pos⌋.toNat
  let γ : ℚ := pos - (i : ℚ)
  s.getD i 0 + γ * (s.getD (i + 1) (s.getD i 0) - s.getD i 0)

/-- `np.median`: middle element of the sorted data (average of the two
middle elements for even length); `none` embeds the NaN that
`np.median([])` produces. -/
def npMedian (l : List ℚ) : Option ℚ :=
  if l.length = 0 then none
  else
    let s := sortQ l
    let n := l.length
    if n % 2 = 1 then some (s.getD (n / 2) 0)
    else some ((s.getD (n / 2 - 1) 0 + s.getD (n / 2) 0) / 2)

/-- IEEE float division as reached by `detect_iqr`: the numerator there is
`abs(value - median) > 0` whenever the denominator (the IQR) is zero, and
positive/0 is +infinity in IEEE arithmetic, embedded as `⊤ : WithTop ℚ`. -/
def fdiv (a b : ℚ) : WithTop ℚ :=
  if b = 0 then ⊤ else ((a / b : ℚ) : WithTop ℚ)

/-- The `Anomaly` dataclass of `anomaly_detection.py`, polymorphic in the
value/score carrier so that the z-score detector can carry real-valued
scores while the other detectors carry rationals. -/
structure Anomaly (V S : Type) where
  index : ℕ
  value : V
  score : S
  method : String
  timestamp : Option String := none
deriving Repr, DecidableEq

/-- `AnomalyDetector.detect_iqr`.  `none` embeds the exception that
`np.percentile` raises on an empty array; otherwise every value outside the
fences `[q1 - multiplier*iqr, q3 + multiplier*iqr]` is reported with score
`|value - median| / iqr` (IEEE semantics via `fdiv`). -/
def detect_iqr (data : List ℚ) (multiplier : ℚ) : Option (List (Anomaly ℚ (WithTop ℚ))) :=
  if data.length = 0 then none
  else
    let q1 := percentile data 25
    let q3 := percentile data 75
    let iqr := q3 - q1
    let lower := q1 - multiplier * iqr
    let upper := q3 + multiplier * iqr
    some ((List.range data.length).filterMap (fun i =>
      let value := data.getD i 0
      if value < lower ∨ value > upper then
        some { index := i, value := value,
               score := fdiv |value - (npMedian data).getD 0| iqr,
               method := "IQR" }
      else none))

/-- `AnomalyDetector.detect_zscore`: population mean and standard deviation;
empty list when `std == 0`, otherwise values whose z-score `|v - mean| / std`
exceeds the threshold are reported with that score. -/
noncomputable def meanR (data : List ℝ) : ℝ := data.sum / data.length

/-- `np.std`: square root of the mean squared deviation (population). -/
noncomputable def stdR (data : List ℝ) : ℝ :=
  Real.sqrt ((data.map (fun x => (x - meanR data) ^ 2)).sum / data.length)

noncomputable def detect_zscore (data : List ℝ) (threshold : ℝ) : List (Anomaly ℝ ℝ) :=
  let mean := meanR data
  let std := stdR data
  if std = 0 then []
  else
    (List.range data.length).filterMap (fun i =>
      let value := data.getD i 0
      let zscore := |value - mean| / std
      if zscore > threshold then
        some { index := i, value := value, score := zscore, method := "Z-score" }
      else none)

/-- Modelled from the spec: `sklearn.ensemble.IsolationForest` is an external
library, not part of this repository.  The spec describes it as "a randomized
collection of partition trees scoring points by how easily they are isolated",
"configured to expect a `contamination` fraction of outliers, using a fixed
deterministic seed so repeated calls on identical input produce identical
output".  We model the pseudo-random source as a linear congruential
generator seeded with `random_state`, and the ensemble as `isoTreeCount`
random split points drawn from it. -/
def lcg (s : ℕ) : ℕ := (1103515245 * s + 12345) % 2147483648

def lcgN (seed : ℕ) : ℕ → ℕ
  | 0 => lcg seed
  | k + 1 => lcg (lcgN seed k)

def randFrac (seed k : ℕ) : ℚ := (lcgN seed k : ℚ) / 2147483648

def isoTreeCount : ℕ := 10

def listMinQ (l : List ℚ) : ℚ := l.foldr min (l.headD 0)

def listMaxQ (l : List ℚ) : ℚ := l.foldr max (l.headD 0)

/-- Modelled from the spec: `score_samples` — each point's continuous score
lies in `[-1, 0]`; points isolated by many of the ensemble's random splits
score closer to `-1` (more anomalous). -/
def isoScoreSamples (random_state : ℕ) (data : List ℚ) : List ℚ :=
  let lo := listMinQ data
  let hi := listMaxQ data
  data.map (fun x =>
    (((List.range isoTreeCount).countP (fun t =>
        let pivot := lo + randFrac random_state t * (hi - lo)
        decide ((x - pivot) ^ 2 ≤ ((hi - lo) / 8) ^ 2)) : ℚ) / (isoTreeCount : ℚ)) - 1)

/-- Modelled from the spec: `fit_predict` — the `⌊contamination·n⌋`
lowest-scoring points are labelled `-1` (outliers), the rest `1`. -/
def isoFitPredict (random_state : ℕ) (contamination : ℚ) (data : List ℚ) : List ℤ :=
  let scores := isoScoreSamples random_state data
  let k : ℕ := ⌊contamination * (data.length : ℚ)⌋.toNat
  let cutoff := (sortQ scores).getD k 0
  scores.map (fun sc => if sc < cutoff then -1 else 1)

/-- The state of an `AnomalyDetector` instance: the `contamination`
parameter and the `_isolation_forest` attribute, which is `None` until
`detect_isolation_forest` stores a fitted model (recorded here by its
parameters and training data). -/
structure AnomalyDetectorState where
  contamination : ℚ
  isolationForestAttr : Option (ℚ × ℕ × List ℚ)
deriving Repr, DecidableEq

/-- `AnomalyDetector.__init__` (default `contamination=0.05`). -/
def AnomalyDetector_init (contamination : ℚ) : AnomalyDetectorState :=
  { contamination := contamination, isolationForestAttr := none }

/-- `AnomalyDetector.detect_isolation_forest`.  `ambientRandomness` models
the process-global pseudo-random state an unseeded estimator would consume;
the code passes `random_state=42`, so it is never read.  Returns the anomaly
list together with the updated detector state (the method assigns
`self._isolation_forest`). -/
def detect_isolation_forest (ambientRandomness : ℕ) (st : AnomalyDetectorState)
    (data : List ℚ) : List (Anomaly ℚ ℚ) × AnomalyDetectorState :=
  let rs : ℕ := 42
  let predictions := isoFitPredict rs st.contamination data
  let scores := isoScoreSamples rs data
  let anomalies := ((predictions.zip scores).enum).filterMap (fun p =>
    if p.2.1 = -1 then
      some { index := p.1, value := data.getD p.1 0, score := |p.2.2|,
             method := "IsolationForest" }
    else none)
  (anomalies, { st with isolationForestAttr := some (st.contamination, rs, data) })

/-- `AnomalyDetector.detect_all`: runs the three detectors with their default
parameters.  `none` embeds the exception `detect_iqr` raises on empty input
(it is evaluated first, so nothing else runs and the state is unchanged). -/
noncomputable def detect_all (ambientRandomness : ℕ) (st : AnomalyDetectorState)
    (data : List ℚ) :
    Option ((List (Anomaly ℚ (WithTop ℚ)) × List (Anomaly ℝ ℝ) × List (Anomaly ℚ ℚ)) ×
      AnomalyDetectorState) :=
  match detect_iqr data (3 / 2) with
  | none => none
  | some iqrList =>
    let zscoreList := detect_zscore (data.map (fun x => (x : ℝ))) 3
    let iso := detect_isolation_forest ambientRandomness st data
    some ((iqrList, zscoreList, iso.1), iso.2)

/-- Sign accumulation step of the Mann-Kendall statistic. -/
def mkSign (d : ℚ) : ℤ := if d > 0 then 1 else if d < 0 then -1 else 0

/-- The Mann-Kendall pairwise statistic `S`: the double loop
`for i in range(n-1): for j in range(i+1, n)` accumulating the sign of
`data[j] - data[i]`. -/
def mkS (data : List ℚ) : ℤ :=
  ∑ i in Finset.range data.length, ∑ j in Finset.Ioo i data.length,
    mkSign (data.getD j 0 - data.getD i 0)

/-- `scipy.stats.norm.cdf`: the standard normal cumulative distribution. -/
noncomputable def normCdf (x : ℝ) : ℝ :=
  (∫ t in Set.Iic x, Real.exp (-(t ^ 2) / 2)) / Real.sqrt (2 * Real.pi)

/-- `TrendAnalyzer.mann_kendall_test`, returning `(z, p_value, trend)`. -/
noncomputable def mann_kendall_test (data : List ℚ) : ℝ × ℝ × String :=
  let n := data.length
  let s := mkS data
  let var_s : ℚ := ((n : ℚ) * ((n : ℚ) - 1) * (2 * (n : ℚ) + 5)) / 18
  let z : ℝ :=
    if s > 0 then ((s : ℝ) - 1) / Real.sqrt (var_s : ℝ)
    else if s < 0 then ((s : ℝ) + 1) / Real.sqrt (var_s : ℝ)
    else 0
  let p_value : ℝ := 2 * (1 - normCdf |z|)
  let trend : String :=
    if z > 0 then "increasing" else if z < 0 then "decreasing" else "no trend"
  (z, p_value, trend)

/-- The list of all pairwise slopes `(data[j] - data[i]) / (j - i)` for
`i < j`, in the order the double loop of `sens_slope` produces them. -/
def pairwiseSlopes (data : List ℚ) : List ℚ :=
  (List.range data.length).flatMap (fun i =>
    ((List.range data.length).filter (fun j => i < j)).map (fun j =>
      (data.getD j 0 - data.getD i 0) / ((j : ℚ) - (i : ℚ))))

/-- `TrendAnalyzer.sens_slope`: the median of all pairwise slopes.  `none`
embeds the NaN that `np.median` produces on the empty slope list (fewer than
2 data points). -/
def sens_slope (data : List ℚ) : Option ℚ := npMedian (pairwiseSlopes data)

/-- The `TrendResult` dataclass of `trend_analysis.py`. -/
structure TrendResult where
  slope : ℚ
  intercept : ℚ
  p_value : ℝ
  trend_direction : String
  is_significant : Prop
  confidence_interval : ℝ × ℝ

/-- `TrendAnalyzer.analyze` (the analyzer's `significance_level`, default
0.05, is its only state).  `none` embeds the failure on sequences shorter
than 2 points: `sens_slope` is NaN there and the integer expression
`6*n*(n-1)` in the standard-error formula raises `ZeroDivisionError`. -/
noncomputable def analyze (significance_level : ℚ) (data : List ℚ) : Option TrendResult :=
  match sens_slope data with
  | none => none
  | some slope =>
    let mk := mann_kendall_test data
    let p_value := mk.2.1
    let direction := mk.2.2
    let n := data.length
    let intercept :=
      (npMedian ((List.range n).map (fun k => data.getD k 0 - slope * (k : ℚ)))).getD 0
    let se : ℝ := (slope : ℝ) *
      Real.sqrt (((n : ℝ) * ((n : ℝ) + 1) * (2 * (n : ℝ) + 1)) / (6 * (n : ℝ) * ((n : ℝ) - 1)))
    some { slope := slope, intercept := intercept, p_value := p_value,
           trend_direction := direction,
           is_significant := p_value < (significance_level : ℝ),
           confidence_interval := ((slope : ℝ) - 196 / 100 * se, (slope : ℝ) + 196 / 100 * se) }

/-- `np.mean` on a list of rationals. -/
def meanQ (l : List ℚ) : ℚ := l.sum / (l.length : ℚ)

/-- Full discrete convolution `np.convolve(a, v)` (zero-padded sum of
products). -/
def convolveFull (a v : List ℚ) : List ℚ :=
  (List.range (a.length + v.length - 1)).map (fun k =>
    ∑ i in Finset.range (k + 1), a.getD i 0 * v.getD (k - i) 0)

/-- `np.convolve(a, v, mode='same')`: the centered slice of the full
convolution, of length `max(len(a), len(v))`. -/
def convolveSame (a v : List ℚ) : List ℚ :=
  ((convolveFull a v).drop ((min a.length v.length - 1) / 2)).take (max a.length v.length)

/-- NumPy elementwise subtraction with 1-D broadcasting; `none` embeds the
`ValueError` raised when the shapes are incompatible. -/
def bsub (a b : List ℚ) : Option (List ℚ) :=
  if a.length = b.length then some (List.zipWith (· - ·) a b)
  else if a.length = 1 then some (b.map (fun y => a.getD 0 0 - y))
  else if b.length = 1 then some (a.map (fun x => x - b.getD 0 0))
  else none

/-- `TrendAnalyzer.seasonal_decompose`: trend = same-length moving average
(`np.convolve` with kernel `np.ones(period)/period`, mode `'same'`),
seasonal = per-phase mean of the detrended series, residual = the remainder
`data - trend - seasonal`.  `none` embeds the exceptions (`np.convolve` on
an empty array or empty kernel, broadcast `ValueError` when the trend's
length differs from the input's). -/
def seasonal_decompose (data : List ℚ) (period : ℕ) :
    Option (List ℚ × List ℚ × List ℚ) :=
  if data.length = 0 ∨ period = 0 then none
  else
    let n := data.length
    let trend := convolveSame data (List.replicate period (1 / (period : ℚ)))
    match bsub data trend with
    | none => none
    | some detrended =>
      let seasonal := (List.range n).map (fun k =>
        meanQ (((List.range n).filter (fun j => j % period = k % period)).map
          (fun j => detrended.getD j 0)))
      match bsub detrended seasonal with
      | none => none
      | some residual => some (trend, seasonal, residual)

/-- Proof helper: indexing into a list with the index clamped to the last
valid position (`s.getD (i+1) (s.getD i 0)` in `percentile` coincides with
`clipGet s (i+1)` whenever `i` is in range). -/
def clipGet (s : List ℚ) (j : ℕ) : ℚ := s.getD (min j (s.length - 1)) 0

/- ### Lemmas about sorting, percentiles and medians -/

lemma sortQ_sorted (l : List ℚ) : (sortQ l).Sorted (· ≤ ·) :=
  List.sorted_insertionSort _ l

lemma sortQ_length (l : List ℚ) : (sortQ l).length = l.length :=
  List.length_insertionSort _ l

lemma mem_sortQ {x : ℚ} {l : List ℚ} : x ∈ sortQ l ↔ x ∈ l :=
  List.mem_insertionSort _

lemma clipGet_mono {s : List ℚ} (hs : s.Sorted (· ≤ ·)) (hne : s ≠ [])
    {i j : ℕ} (hij : i ≤ j) : clipGet s i ≤ clipGet s j := by
  have hlen : 0 < s.length := List.length_pos.mpr hne
  have hi : min i (s.length - 1) < s.length := by omega
  have hj : min j (s.length - 1) < s.length := by omega
  unfold clipGet
  rw [List.getD_eq_getElem s 0 hi, List.getD_eq_getElem s 0 hj]
  have h := hs.rel_get_of_le (a := ⟨_, hi⟩) (b := ⟨_, hj⟩)
    (by simp only [Fin.mk_le_mk]; omega)
  simpa using h

lemma clipGet_of_mem {s : List ℚ} {c : ℚ} (hne : s ≠ [])
    (hc : ∀ x ∈ s, x = c) (j : ℕ) : clipGet s j = c := by
  have hlen : 0 < s.length := List.length_pos.mpr hne
  have hj : min j (s.length - 1) < s.length := by omega
  unfold clipGet
  rw [List.getD_eq_getElem s 0 hj]
  exact hc _ (List.getElem_mem _)

lemma getD_eq_clipGet {s : List ℚ} (hne : s ≠ []) {i : ℕ}
    (hi : i ≤ s.length - 1) : s.getD i 0 = clipGet s i := by
  unfold clipGet
  congr 1
  omega

lemma getD_succ_eq_clipGet {s : List ℚ} (hne : s ≠ []) {i : ℕ}
    (hi : i ≤ s.length - 1) :
    s.getD (i + 1) (s.getD i 0) = clipGet s (i + 1) := by
  have hlen : 0 < s.length := List.length_pos.mpr hne
  rcases lt_or_ge (i + 1) s.length with h | h
  · rw [List.getD_eq_getElem s _ h]
    unfold clipGet
    rw [List.getD_eq_getElem s 0 (by omega)]
    congr 1
    omega
  · rw [List.getD_eq_default _ _ h]
    have hmin : min (i + 1) (s.length - 1) = i := by omega
    unfold clipGet
    rw [hmin]

lemma pos_nonneg {n : ℕ} (hn : 1 ≤ n) {q : ℚ} (h0 : 0 ≤ q) :
    0 ≤ q * ((n : ℚ) - 1) / 100 := by
  have h1 : (1 : ℚ) ≤ (n : ℚ) := by exact_mod_cast hn
  apply div_nonneg (mul_nonneg h0 (by linarith)) (by norm_num)

lemma pos_le {n : ℕ} (hn : 1 ≤ n) {q : ℚ} (h0 : 0 ≤ q) (h100 : q ≤ 100) :
    q * ((n : ℚ) - 1) / 100 ≤ (n : ℚ) - 1 := by
  have h1 : (1 : ℚ) ≤ (n : ℚ) := by exact_mod_cast hn
  nlinarith

lemma floor_pos_toNat_le {n : ℕ} (hn : 1 ≤ n) {p : ℚ} (h0 : 0 ≤ p)
    (hub : p ≤ (n : ℚ) - 1) : ⌊p⌋.toNat ≤ n - 1 := by
  have h1 : ((n - 1 : ℕ) : ℚ) = (n : ℚ) - 1 := by
    push_cast [Nat.cast_sub hn]
    ring
  have h2 : ⌊p⌋ ≤ (n - 1 : ℕ) := by
    have := Int.floor_le_floor (α := ℚ) (hub.trans_eq h1.symm)
    simpa using this
  omega

lemma percentile_eq_clip (data : List ℚ) (hne : data ≠ []) (q : ℚ)
    (h0 : 0 ≤ q) (h100 : q ≤ 100) :
    percentile data q =
      clipGet (sortQ data) ⌊q * ((data.length : ℚ) - 1) / 100⌋.toNat +
        (q * ((data.length : ℚ) - 1) / 100 -
          (⌊q * ((data.length : ℚ) - 1) / 100⌋.toNat : ℚ)) *
        (clipGet (sortQ data) (⌊q * ((data.length : ℚ) - 1) / 100⌋.toNat + 1) -
          clipGet (sortQ data) ⌊q * ((data.length : ℚ) - 1) / 100⌋.toNat) := by
  have hn : 1 ≤ data.length := List.length_pos.mpr hne
  have hsne : sortQ data ≠ [] := by
    intro h
    have := sortQ_length data
    rw [h] at this
    simp at this
    omega
  have hi : ⌊q * ((data.length : ℚ) - 1) / 100⌋.toNat ≤ (sortQ data).length - 1 := by
    rw [sortQ_length]
    exact floor_pos_toNat_le hn (pos_nonneg hn h0) (pos_le hn h0 h100)
  simp only [percentile]
  rw [getD_succ_eq_clipGet hsne hi, getD_eq_clipGet hsne hi]

lemma interpClip_mono {s : List ℚ} (hs : s.Sorted (· ≤ ·)) (hne : s ≠ [])
    {p p' : ℚ} (h0 : 0 ≤ p) (hpp : p ≤ p') (hub : p' ≤ (s.length : ℚ) - 1) :
    clipGet s ⌊p⌋.toNat +
        (p - (⌊p⌋.toNat : ℚ)) * (clipGet s (⌊p⌋.toNat + 1) - clipGet s ⌊p⌋.toNat) ≤
      clipGet s ⌊p'⌋.toNat +
        (p' - (⌊p'⌋.toNat : ℚ)) * (clipGet s (⌊p'⌋.toNat + 1) - clipGet s ⌊p'⌋.toNat) := by
  have h0' : 0 ≤ p' := le_trans h0 hpp
  have hfl : (⌊p⌋.toNat : ℚ) = (⌊p⌋ : ℚ) := by
    exact_mod_cast congrArg (fun z : ℤ => (z : ℚ))
      (Int.toNat_of_nonneg (Int.floor_nonneg.mpr h0))
  have hfl' : (⌊p'⌋.toNat : ℚ) = (⌊p'⌋ : ℚ) := by
    exact_mod_cast congrArg (fun z : ℤ => (z : ℚ))
      (Int.toNat_of_nonneg (Int.floor_nonneg.mpr h0'))
  have hγ0 : 0 ≤ p - (⌊p⌋.toNat : ℚ) := by
    rw [hfl]
    linarith [Int.floor_le p]
  have hγ1 : p - (⌊p⌋.toNat : ℚ) ≤ 1 := by
    rw [hfl]
    linarith [Int.lt_floor_add_one p]
  have hγ0' : 0 ≤ p' - (⌊p'⌋.toNat : ℚ) := by
    rw [hfl']
    linarith [Int.floor_le p']
  have hγ1' : p' - (⌊p'⌋.toNat : ℚ) ≤ 1 := by
    rw [hfl']
    linarith [Int.lt_floor_add_one p']
  have hii : ⌊p⌋.toNat ≤ ⌊p'⌋.toNat := by
    have := Int.floor_le_floor (α := ℚ) hpp
    omega
  rcases eq_or_lt_of_le hii with heq | hlt
  · rw [heq]
    have hstep : clipGet s ⌊p'⌋.toNat ≤ clipGet s (⌊p'⌋.toNat + 1) :=
      clipGet_mono hs hne (Nat.le_succ _)
    have hγγ : p - (⌊p⌋.toNat : ℚ) ≤ p' - (⌊p'⌋.toNat : ℚ) := by
      rw [heq] at *
      linarith
    nlinarith
  · have e1 : clipGet s ⌊p⌋.toNat +
        (p - (⌊p⌋.toNat : ℚ)) * (clipGet s (⌊p⌋.toNat + 1) - clipGet s ⌊p⌋.toNat) ≤
        clipGet s (⌊p⌋.toNat + 1) := by
      have hstep : clipGet s ⌊p⌋.toNat ≤ clipGet s (⌊p⌋.toNat + 1) :=
        clipGet_mono hs hne (Nat.le_succ _)
      nlinarith
    have e2 : clipGet s (⌊p⌋.toNat + 1) ≤ clipGet s ⌊p'⌋.toNat :=
      clipGet_mono hs hne hlt
    have e3 : clipGet s ⌊p'⌋.toNat ≤ clipGet s ⌊p'⌋.toNat +
        (p' - (⌊p'⌋.toNat : ℚ)) * (clipGet s (⌊p'⌋.toNat + 1) - clipGet s ⌊p'⌋.toNat) := by
      have hstep : clipGet s ⌊p'⌋.toNat ≤ clipGet s (⌊p'⌋.toNat + 1) :=
        clipGet_mono hs hne (Nat.le_succ _)
      nlinarith
    linarith

lemma percentile_mono (data : List ℚ) (hne : data ≠ []) {q q' : ℚ}
    (h0 : 0 ≤ q) (hqq : q ≤ q') (h100 : q' ≤ 100) :
    percentile data q ≤ percentile data q' := by
  have hn : 1 ≤ data.length := List.length_pos.mpr hne
  have hsne : sortQ data ≠ [] := by
    intro h
    have := sortQ_length data
    rw [h] at this
    simp at this
    omega
  rw [percentile_eq_clip data hne q h0 (hqq.trans h100),
    percentile_eq_clip data hne q' (h0.trans hqq) h100]
  apply interpClip_mono (sortQ_sorted data) hsne (pos_nonneg hn h0)
  · have h1 : (1 : ℚ) ≤ (data.length : ℚ) := by exact_mod_cast hn
    have h2 : 0 ≤ (data.length : ℚ) - 1 := by linarith
    gcongr
  · rw [sortQ_length]
    exact pos_le hn (h0.trans hqq) h100

lemma percentile_const {data : List ℚ} {c : ℚ} (hne : data ≠ [])
    (hc : ∀ x ∈ data, x = c) {q : ℚ} (h0 : 0 ≤ q) (h100 : q ≤ 100) :
    percentile data q = c := by
  have hsne : sortQ data ≠ [] := by
    intro h
    have h2 := sortQ_length data
    rw [h] at h2
    have := List.length_pos.mpr hne
    simp at h2
    omega
  have hcs : ∀ x ∈ sortQ data, x = c := fun x hx => hc x (mem_sortQ.mp hx)
  rw [percentile_eq_clip data hne q h0 h100,
    clipGet_of_mem hsne hcs, clipGet_of_mem hsne hcs]
  ring

lemma npMedian_const {l : List ℚ} {c : ℚ} (hne : l ≠ [])
    (hc : ∀ x ∈ l, x = c) : npMedian l = some c := by
  have hlen : 0 < l.length := List.length_pos.mpr hne
  have hslen : (sortQ l).length = l.length := sortQ_length l
  have hget : ∀ j, j < l.length → (sortQ l).getD j 0 = c := by
    intro j hj
    rw [List.getD_eq_getElem _ _ (by omega)]
    exact hc _ (mem_sortQ.mp (List.getElem_mem _))
  simp only [npMedian]
  rw [if_neg (by omega)]
  rcases Nat.even_or_odd l.length with he | ho
  · have he' : l.length % 2 = 0 := Nat.even_iff.mp he
    rw [if_neg (by omega : ¬l.length % 2 = 1)]
    rw [hget _ (by omega), hget _ (by omega)]
    norm_num
  · rw [if_pos (Nat.odd_iff.mp ho)]
    rw [hget _ (by omega)]

lemma npMedian_eq_percentile (data : List ℚ) (hne : data ≠ []) :
    npMedian data = some (percentile data 50) := by
  have hlen : 0 < data.length := List.length_pos.mpr hne
  have hslen : (sortQ data).length = data.length := sortQ_length data
  rcases Nat.even_or_odd data.length with he | ho
  · obtain ⟨m, hm⟩ := he
    have hm' : data.length = 2 * m := by omega
    have hm1 : 1 ≤ m := by omega
    have hpos : (50 : ℚ) * ((data.length : ℚ) - 1) / 100 = (m : ℚ) - 1 + 1 / 2 := by
      rw [hm']
      push_cast
      ring
    have hfl : ⌊(50 : ℚ) * ((data.length : ℚ) - 1) / 100⌋ = (m : ℤ) - 1 := by
      rw [hpos, Int.floor_eq_iff]
      constructor
      · push_cast
        linarith
      · push_cast
        linarith
    simp only [npMedian, percentile]
    rw [if_neg (by omega), if_neg (by omega : ¬data.length % 2 = 1)]
    rw [hfl]
    have htn : ((m : ℤ) - 1).toNat = m - 1 := by omega
    rw [htn]
    have hlt : m - 1 + 1 < (sortQ data).length := by omega
    rw [List.getD_eq_getElem _ _ hlt]
    have hlt2 : m - 1 < (sortQ data).length := by omega
    rw [List.getD_eq_getElem _ 0 hlt2]
    have hd1 : data.length / 2 - 1 = m - 1 := by omega
    have hd2 : data.length / 2 = m - 1 + 1 := by omega
    rw [hd1, hd2]
    rw [List.getD_eq_getElem _ 0 hlt, List.getD_eq_getElem _ 0 hlt2]
    have hc : ((m - 1 : ℕ) : ℚ) = (m : ℚ) - 1 := by
      push_cast [Nat.cast_sub hm1]
      ring_nf
    rw [hpos, hc]
    ring_nf
  · obtain ⟨m, hm⟩ := ho
    have hpos : (50 : ℚ) * ((data.length : ℚ) - 1) / 100 = (m : ℚ) := by
      rw [hm]
      push_cast
      ring
    have hfl : ⌊(50 : ℚ) * ((data.length : ℚ) - 1) / 100⌋ = (m : ℤ) := by
      rw [hpos]
      exact Int.floor_natCast m
    simp only [npMedian, percentile]
    rw [if_neg (by omega), if_pos (by omega : data.length % 2 = 1)]
    rw [hfl]
    have htn : ((m : ℤ)).toNat = m := by omega
    rw [htn, hpos]
    have hd : data.length / 2 = m := by omega
    rw [hd]
    ring_nf

/- ### The claims -/

/-- C1: if the interquartile range of a (nonempty) input sequence is zero,
`detect_iqr` succeeds, reports score +infinity (`⊤`) for exactly the values
that differ from the median, and returns an empty anomaly list when every
value equals the median (so on a constant sequence it returns an empty list
and the division by the zero IQR is never executed). -/
theorem detect_iqr_zero_iqr_policy (data : List ℚ) (multiplier : ℚ)
    (hne : data ≠ [])
    (hiqr : percentile data 75 - percentile data 25 = 0) :
    ∃ l, detect_iqr data multiplier = some l ∧
      (∀ i, i < data.length →
        ((∃ a ∈ l, a.index = i ∧ a.score = (⊤ : WithTop ℚ)) ↔
          data.getD i 0 ≠ (npMedian data).getD 0)) ∧
      ((∀ x ∈ data, x = (npMedian data).getD 0) → l = []) := by
  have hlen : 0 < data.length := List.length_pos.mpr hne
  have hq : percentile data 75 = percentile data 25 := by linarith
  have h25_50 : percentile data 25 ≤ percentile data 50 :=
    percentile_mono data hne (by norm_num) (by norm_num) (by norm_num)
  have h50_75 : percentile data 50 ≤ percentile data 75 :=
    percentile_mono data hne (by norm_num) (by norm_num) (by norm_num)
  have h50 : percentile data 50 = percentile data 25 := by
    rw [hq] at h50_75
    exact le_antisymm h50_75 h25_50
  have hmed : (npMedian data).getD 0 = percentile data 25 := by
    rw [npMedian_eq_percentile data hne]
    simpa using h50
  simp only [detect_iqr]
  rw [if_neg (by omega)]
  refine ⟨_, rfl, ?_, ?_⟩
  · intro i hi
    constructor
    · rintro ⟨a, ha, hidx, -⟩
      rw [List.mem_filterMap] at ha
      obtain ⟨j, hj, hfa⟩ := ha
      rw [List.mem_range] at hj
      by_cases hcond : data.getD j 0 < percentile data 25 - multiplier *
          (percentile data 75 - percentile data 25) ∨
          data.getD j 0 > percentile data 75 + multiplier *
          (percentile data 75 - percentile data 25)
      · rw [if_pos hcond] at hfa
        have hji : j = i := by
          have := congrArg (fun o => (Option.map Anomaly.index o).getD 0) hfa
          simpa [hidx] using this
        subst hji
        rw [hmed]
        rcases hcond with h | h
        · rw [hiqr] at h
          intro hcontra
          rw [hcontra] at h
          linarith
        · rw [hiqr, hq] at h
          intro hcontra
          rw [hcontra] at h
          linarith
      · rw [if_neg hcond] at hfa
        exact absurd hfa (by simp)
    · intro hne_med
      have hcond : data.getD i 0 < percentile data 25 - multiplier *
          (percentile data 75 - percentile data 25) ∨
          data.getD i 0 > percentile data 75 + multiplier *
          (percentile data 75 - percentile data 25) := by
        rw [hiqr, hq]
        rw [hmed] at hne_med
        rcases lt_or_gt_of_ne hne_med with h | h
        · left
          linarith
        · right
          linarith
      refine ⟨{ index := i, value := data.getD i 0,
                score := fdiv |data.getD i 0 - (npMedian data).getD 0|
                  (percentile data 75 - percentile data 25),
                method := "IQR" }, ?_, rfl, ?_⟩
      · exact List.mem_filterMap.mpr ⟨i, List.mem_range.mpr hi, by rw [if_pos hcond]⟩
      · simp [fdiv, hiqr]
  · intro hall
    apply List.filterMap_eq_nil_iff.mpr
    intro j hj
    rw [List.mem_range] at hj
    have hx : data.getD j 0 = (npMedian data).getD 0 := by
      rw [List.getD_eq_getElem _ _ hj]
      exact hall _ (List.getElem_mem _)
    rw [if_neg]
    rw [hx, hmed, hiqr, hq]
    push_neg
    constructor
    · linarith
    · linarith

/-- Witness for C1 at the concrete input `[0, 1, 1, 1, 1, 1, 1, 2]`
(whose Q1 and Q3 are both 1, so the IQR is zero while the data is not
constant). -/
theorem detect_iqr_zero_iqr_policy_witness :
    ([(0 : ℚ), 1, 1, 1, 1, 1, 1, 2] ≠ []) ∧
    (percentile [(0 : ℚ), 1, 1, 1, 1, 1, 1, 2] 75 -
      percentile [(0 : ℚ), 1, 1, 1, 1, 1, 1, 2] 25 = 0) ∧
    (∃ l, detect_iqr [(0 : ℚ), 1, 1, 1, 1, 1, 1, 2] (3 / 2) = some l ∧
      (∀ i, i < ([(0 : ℚ), 1, 1, 1, 1, 1, 1, 2] : List ℚ).length →
        ((∃ a ∈ l, a.index = i ∧ a.score = (⊤ : WithTop ℚ)) ↔
          ([(0 : ℚ), 1, 1, 1, 1, 1, 1, 2] : List ℚ).getD i 0 ≠
            (npMedian [(0 : ℚ), 1, 1, 1, 1, 1, 1, 2]).getD 0)) ∧
      ((∀ x ∈ ([(0 : ℚ), 1, 1, 1, 1, 1, 1, 2] : List ℚ), x =
          (npMedian [(0 : ℚ), 1, 1, 1, 1, 1, 1, 2]).getD 0) → l = [])) :=
  ⟨by simp,
    by norm_num [percentile, sortQ, List.insertionSort, List.orderedInsert,
        show Int.toNat 5 = 5 from rfl],
    detect_iqr_zero_iqr_policy [(0 : ℚ), 1, 1, 1, 1, 1, 1, 2] (3 / 2)
      (by simp)
      (by norm_num [percentile, sortQ, List.insertionSort, List.orderedInsert,
        show Int.toNat 5 = 5 from rfl])⟩

/-- C2 (code evidence): contrary to the spec's required failure semantics,
the code performs no length validation.  `detect_iqr` on a 3-point sequence
(below the required minimum of 4) completes normally and returns an (empty)
anomaly list instead of raising an explicit error, and `sens_slope` on a
1-point sequence (below the minimum of 2) silently produces NaN (embedded
as `none`) instead of raising an explicit error. -/
theorem short_input_not_rejected :
    detect_iqr [1, 2, 3] (3 / 2) = some [] ∧ sens_slope [5] = none := by
  constructor
  · norm_num [detect_iqr, percentile, sortQ, List.insertionSort,
      List.orderedInsert, npMedian, List.range_succ, List.filterMap]
  · rfl

/-- C3 (counterexample): `seasonal_decompose` does not return same-length
components for every period ≥ 1 — with a 3-point input and period 4 the
same-mode convolution yields a trend of length `max(3, 4) = 4`, and the
broadcast subtraction `data - trend` raises a `ValueError` (embedded as
`none`), so no decomposition is returned at all. -/
theorem seasonal_decompose_period_gt_length :
    seasonal_decompose [1, 2, 3] 4 = none := by rfl

/-- C3 (amended): for every input and every period with
`1 ≤ period ≤ len(data)`, `seasonal_decompose` succeeds and returns trend,
seasonal and residual sequences of the input's length satisfying
`trend[i] + seasonal[i] + residual[i] = data[i]` exactly at every index. -/
theorem seasonal_decompose_reconstruction (data : List ℚ) (period : ℕ)
    (h1 : 1 ≤ period) (h2 : period ≤ data.length) :
    ∃ t s r, seasonal_decompose data period = some (t, s, r) ∧
      t.length = data.length ∧ s.length = data.length ∧
      r.length = data.length ∧
      ∀ i, i < data.length →
        t.getD i 0 + s.getD i 0 + r.getD i 0 = data.getD i 0 := by
  have hlen : 0 < data.length := by omega
  have hker : (List.replicate period ((1 : ℚ) / (period : ℚ))).length = period :=
    List.length_replicate _ _
  have htrendlen :
      (convolveSame data (List.replicate period ((1 : ℚ) / (period : ℚ)))).length =
        data.length := by
    simp only [convolveSame, convolveFull, List.length_take, List.length_drop,
      List.length_map, List.length_range, hker]
    omega
  simp only [seasonal_decompose]
  rw [if_neg (by omega)]
  set trend := convolveSame data (List.replicate period ((1 : ℚ) / (period : ℚ)))
    with htrend
  have hbsub1 : bsub data trend =
      some (List.zipWith (· - ·) data trend) := by
    simp [bsub, htrendlen]
  simp only [hbsub1]
  set detrended := List.zipWith (· - ·) data trend with hdet
  have hdetlen : detrended.length = data.length := by
    simp only [hdet, List.length_zipWith, htrendlen]
    omega
  set seasonal := (List.range data.length).map (fun k =>
    meanQ (((List.range data.length).filter (fun j => j % period = k % period)).map
      (fun j => detrended.getD j 0))) with hseas
  have hseaslen : seasonal.length = data.length := by
    simp only [hseas, List.length_map, List.length_range]
  have hbsub2 : bsub detrended seasonal =
      some (List.zipWith (· - ·) detrended seasonal) := by
    simp [bsub, hdetlen, hseaslen]
  simp only [hbsub2]
  refine ⟨trend, seasonal, List.zipWith (· - ·) detrended seasonal, rfl,
    htrendlen, hseaslen, ?_, ?_⟩
  · simp only [List.length_zipWith, hdetlen, hseaslen]
    omega
  · intro i hi
    have hit : i < trend.length := by omega
    have his : i < seasonal.length := by omega
    have hid : i < detrended.length := by omega
    have hir : i < (List.zipWith (· - ·) detrended seasonal).length := by
      simp only [List.length_zipWith]
      omega
    rw [List.getD_eq_getElem _ _ hi, List.getD_eq_getElem _ _ hit,
      List.getD_eq_getElem _ _ his, List.getD_eq_getElem _ _ hir]
    rw [List.getElem_zipWith]
    have hdi : detrended[i] = data[i] - trend[i] := by
      simp only [hdet]
      rw [List.getElem_zipWith]
    rw [hdi]
    ring

/-- Witness for the amended C3 at `data = [1, 2, 3, 4]`, `period = 2`. -/
theorem seasonal_decompose_reconstruction_witness :
    (1 ≤ 2 ∧ 2 ≤ ([(1 : ℚ), 2, 3, 4] : List ℚ).length) ∧
    (∃ t s r, seasonal_decompose [(1 : ℚ), 2, 3, 4] 2 = some (t, s, r) ∧
      t.length = ([(1 : ℚ), 2, 3, 4] : List ℚ).length ∧
      s.length = ([(1 : ℚ), 2, 3, 4] : List ℚ).length ∧
      r.length = ([(1 : ℚ), 2, 3, 4] : List ℚ).length ∧
      ∀ i, i < ([(1 : ℚ), 2, 3, 4] : List ℚ).length →
        t.getD i 0 + s.getD i 0 + r.getD i 0 =
          ([(1 : ℚ), 2, 3, 4] : List ℚ).getD i 0) :=
  ⟨⟨by norm_num, by norm_num⟩,
    seasonal_decompose_reconstruction [(1 : ℚ), 2, 3, 4] 2
      (by norm_num) (by norm_num)⟩

lemma mkS_of_pairwise_lt (data : List ℚ) (h : data.Pairwise (· < ·)) :
    mkS data = ((data.length * (data.length - 1)) / 2 : ℕ) := by
  unfold mkS
  have hinner : ∀ i ∈ Finset.range data.length,
      ∑ j in Finset.Ioo i data.length, mkSign (data.getD j 0 - data.getD i 0) =
        ((data.length - i - 1 : ℕ) : ℤ) := by
    intro i hi
    rw [Finset.mem_range] at hi
    have hone : ∀ j ∈ Finset.Ioo i data.length,
        mkSign (data.getD j 0 - data.getD i 0) = 1 := by
      intro j hj
      rw [Finset.mem_Ioo] at hj
      rw [List.getD_eq_getElem _ _ hj.2, List.getD_eq_getElem _ _ hi]
      have hlt := List.pairwise_iff_getElem.mp h i j hi hj.2 hj.1
      simp [mkSign, sub_pos.mpr hlt]
    rw [Finset.sum_congr rfl hone]
    simp [Finset.sum_const, Nat.card_Ioo]
  rw [Finset.sum_congr rfl hinner, ← Nat.cast_sum]
  congr 1
  calc ∑ i in Finset.range data.length, (data.length - i - 1)
      = ∑ i in Finset.range data.length, (data.length - 1 - i) := by
        apply Finset.sum_congr rfl
        intro i _
        omega
    _ = ∑ i in Finset.range data.length, i :=
        Finset.sum_range_reflect (fun j => j) _
    _ = data.length * (data.length - 1) / 2 := Finset.sum_range_id _

lemma mkS_of_pairwise_gt (data : List ℚ) (h : data.Pairwise (· > ·)) :
    mkS data = -((data.length * (data.length - 1)) / 2 : ℕ) := by
  unfold mkS
  have hinner : ∀ i ∈ Finset.range data.length,
      ∑ j in Finset.Ioo i data.length, mkSign (data.getD j 0 - data.getD i 0) =
        -((data.length - i - 1 : ℕ) : ℤ) := by
    intro i hi
    rw [Finset.mem_range] at hi
    have hone : ∀ j ∈ Finset.Ioo i data.length,
        mkSign (data.getD j 0 - data.getD i 0) = -1 := by
      intro j hj
      rw [Finset.mem_Ioo] at hj
      rw [List.getD_eq_getElem _ _ hj.2, List.getD_eq_getElem _ _ hi]
      have hlt := List.pairwise_iff_getElem.mp h i j hi hj.2 hj.1
      have hneg : data[j] - data[i] < 0 := by
        simp only [gt_iff_lt] at hlt
        linarith
      simp [mkSign, hneg, not_lt.mpr (le_of_lt hneg)]
    rw [Finset.sum_congr rfl hone]
    simp [Finset.sum_const, Nat.card_Ioo]
  rw [Finset.sum_congr rfl hinner, Finset.sum_neg_distrib, ← Nat.cast_sum]
  congr 2
  calc ∑ i in Finset.range data.length, (data.length - i - 1)
      = ∑ i in Finset.range data.length, (data.length - 1 - i) := by
        apply Finset.sum_congr rfl
        intro i _
        omega
    _ = ∑ i in Finset.range data.length, i :=
        Finset.sum_range_reflect (fun j => j) _
    _ = data.length * (data.length - 1) / 2 := Finset.sum_range_id _

lemma trend_branch_pos {z : ℝ} (hz : 0 < z) :
    (if z > 0 then "increasing" else if z < 0 then "decreasing"
      else "no trend") = "increasing" := if_pos hz

lemma trend_branch_neg {z : ℝ} (hz : z < 0) :
    (if z > 0 then "increasing" else if z < 0 then "decreasing"
      else "no trend") = "decreasing" := by
  rw [if_neg (by linarith : ¬z > 0), if_pos hz]

lemma z_pos_branch {s : ℤ} {v : ℝ} (hs : 1 < s) (hv : 0 < v) :
    0 < (if s > 0 then ((s : ℝ) - 1) / Real.sqrt v
      else if s < 0 then ((s : ℝ) + 1) / Real.sqrt v else 0) := by
  rw [if_pos (by omega : s > 0)]
  apply div_pos
  · have h2 : (2 : ℝ) ≤ (s : ℝ) := by exact_mod_cast (by omega : (2 : ℤ) ≤ s)
    linarith
  · exact Real.sqrt_pos.mpr hv

lemma z_neg_branch {s : ℤ} {v : ℝ} (hs : s < -1) (hv : 0 < v) :
    (if s > 0 then ((s : ℝ) - 1) / Real.sqrt v
      else if s < 0 then ((s : ℝ) + 1) / Real.sqrt v else 0) < 0 := by
  rw [if_neg (by omega : ¬s > 0), if_pos (by omega : s < 0)]
  apply div_neg_of_neg_of_pos
  · have h2 : (s : ℝ) ≤ -2 := by exact_mod_cast (by omega : s ≤ (-2 : ℤ))
    linarith
  · exact Real.sqrt_pos.mpr hv

lemma var_s_cast_pos {n : ℕ} (h2 : 2 ≤ n) :
    (0 : ℝ) < (((n : ℚ) * ((n : ℚ) - 1) * (2 * (n : ℚ) + 5) / 18 : ℚ) : ℝ) := by
  rw [Rat.cast_pos]
  have hn : (2 : ℚ) ≤ (n : ℚ) := by exact_mod_cast h2
  apply div_pos ?_ (by norm_num)
  have ha : (0 : ℚ) < (n : ℚ) := by linarith
  have hb : (0 : ℚ) < (n : ℚ) - 1 := by linarith
  have hc : (0 : ℚ) < 2 * (n : ℚ) + 5 := by linarith
  exact mul_pos (mul_pos ha hb) hc

lemma mk_trend_increasing (data : List ℚ) (h2 : 2 ≤ data.length)
    (hs : 1 < mkS data) : (mann_kendall_test data).2.2 = "increasing" := by
  simp only [mann_kendall_test]
  exact trend_branch_pos (z_pos_branch hs (var_s_cast_pos h2))

lemma mk_trend_decreasing (data : List ℚ) (h2 : 2 ≤ data.length)
    (hs : mkS data < -1) : (mann_kendall_test data).2.2 = "decreasing" := by
  simp only [mann_kendall_test]
  exact trend_branch_neg (z_neg_branch hs (var_s_cast_pos h2))

lemma mkS_zero_one : mkS [(0 : ℚ), 1] = 1 := by
  unfold mkS
  rw [show ([(0 : ℚ), 1].length) = 2 from rfl]
  rw [Finset.sum_range_succ, Finset.sum_range_succ, Finset.sum_range_zero]
  rw [show Finset.Ioo 0 2 = ({1} : Finset ℕ) from by decide,
    show Finset.Ioo 1 2 = (∅ : Finset ℕ) from by decide]
  rw [Finset.sum_singleton, Finset.sum_empty]
  norm_num [mkSign]

/-- C4 (counterexample): on the strictly increasing 2-point sequence
`[0, 1]` the pairwise statistic is `S = 1 = n(n-1)/2`, but the returned
direction is `"no trend"`, not `"increasing"`: the code computes
`z = (S-1)/sqrt(varS) = 0` and derives the direction from the sign of `z`. -/
theorem mann_kendall_two_point_no_trend :
    ([(0 : ℚ), 1].Pairwise (· < ·)) ∧ ([(0 : ℚ), 1].length = 2) ∧
      (mann_kendall_test [(0 : ℚ), 1]).2.2 = "no trend" := by
  refine ⟨by norm_num, rfl, ?_⟩
  simp only [mann_kendall_test]
  rw [mkS_zero_one, if_pos (by norm_num : (1 : ℤ) > 0)]
  rw [show ((1 : ℤ) : ℝ) - 1 = 0 by norm_num, zero_div]
  norm_num

/-- C4 (amended): for every strictly increasing sequence of length n ≥ 2
the Mann-Kendall pairwise statistic S equals n(n-1)/2 and, provided n ≥ 3,
the returned direction is `"increasing"`; dually for strictly decreasing
sequences S = -n(n-1)/2 and, for n ≥ 3, the direction is `"decreasing"`
(at n = 2 the continuity correction makes z = 0 and the direction is
`"no trend"`). -/
theorem mann_kendall_monotone (data : List ℚ) (h2 : 2 ≤ data.length) :
    (data.Pairwise (· < ·) →
      mkS data = ((data.length * (data.length - 1)) / 2 : ℕ) ∧
      (3 ≤ data.length → (mann_kendall_test data).2.2 = "increasing")) ∧
    (data.Pairwise (· > ·) →
      mkS data = -((data.length * (data.length - 1)) / 2 : ℕ) ∧
      (3 ≤ data.length → (mann_kendall_test data).2.2 = "decreasing")) := by
  constructor
  · intro hpw
    have hS := mkS_of_pairwise_lt data hpw
    refine ⟨hS, fun h3 => ?_⟩
    apply mk_trend_increasing data h2
    rw [hS]
    have : 3 ≤ data.length * (data.length - 1) / 2 := by
      have h1 : 3 * 2 ≤ data.length * (data.length - 1) :=
        Nat.mul_le_mul h3 (by omega)
      omega
    have h2' : (3 : ℤ) ≤ (data.length * (data.length - 1) / 2 : ℕ) := by
      exact_mod_cast this
    omega
  · intro hpw
    have hS := mkS_of_pairwise_gt data hpw
    refine ⟨hS, fun h3 => ?_⟩
    apply mk_trend_decreasing data h2
    rw [hS]
    have : 3 ≤ data.length * (data.length - 1) / 2 := by
      have h1 : 3 * 2 ≤ data.length * (data.length - 1) :=
        Nat.mul_le_mul h3 (by omega)
      omega
    have h2' : (3 : ℤ) ≤ (data.length * (data.length - 1) / 2 : ℕ) := by
      exact_mod_cast this
    omega

/-- Witness for the amended C4 at the increasing input `[0, 1, 2]` and the
decreasing input `[2, 1, 0]`. -/
theorem mann_kendall_monotone_witness :
    (2 ≤ ([(0 : ℚ), 1, 2] : List ℚ).length) ∧
    (mkS [(0 : ℚ), 1, 2] =
      ((([(0 : ℚ), 1, 2] : List ℚ).length *
        (([(0 : ℚ), 1, 2] : List ℚ).length - 1)) / 2 : ℕ)) ∧
    (mann_kendall_test [(0 : ℚ), 1, 2]).2.2 = "increasing" ∧
    (mkS [(2 : ℚ), 1, 0] =
      -((([(2 : ℚ), 1, 0] : List ℚ).length *
        (([(2 : ℚ), 1, 0] : List ℚ).length - 1)) / 2 : ℕ)) ∧
    (mann_kendall_test [(2 : ℚ), 1, 0]).2.2 = "decreasing" := by
  have hpwi : ([(0 : ℚ), 1, 2] : List ℚ).Pairwise (· < ·) := by
    norm_num [List.pairwise_cons]
  have hpwd : ([(2 : ℚ), 1, 0] : List ℚ).Pairwise (· > ·) := by
    norm_num [List.pairwise_cons]
  have hinc := (mann_kendall_monotone [(0 : ℚ), 1, 2] (by norm_num)).1 hpwi
  have hdec := (mann_kendall_monotone [(2 : ℚ), 1, 0] (by norm_num)).2 hpwd
  exact ⟨by norm_num, hinc.1, hinc.2 (by norm_num), hdec.1, hdec.2 (by norm_num)⟩

lemma getD_range_map (f : ℕ → ℚ) {n j : ℕ} (hj : j < n) :
    ((List.range n).map f).getD j 0 = f j := by
  rw [List.getD_eq_getElem _ _ (by simp [hj])]
  simp

lemma pairwiseSlopes_linear (a b : ℚ) (n : ℕ) :
    ∀ x ∈ pairwiseSlopes ((List.range n).map (fun i : ℕ => a + b * (i : ℚ))), x = b := by
  intro x hx
  unfold pairwiseSlopes at hx
  rw [List.mem_flatMap] at hx
  obtain ⟨i, hi, hx⟩ := hx
  rw [List.mem_map] at hx
  obtain ⟨j, hj, rfl⟩ := hx
  rw [List.mem_filter] at hj
  obtain ⟨hjr, hij⟩ := hj
  rw [List.mem_range, List.length_map, List.length_range] at hi hjr
  have hij' : i < j := by simpa using hij
  rw [getD_range_map _ hjr, getD_range_map _ hi]
  have hne : ((j : ℚ)) - (i : ℚ) ≠ 0 := by
    have : (i : ℚ) < (j : ℚ) := by exact_mod_cast hij'
    intro hc
    linarith
  field_simp
  ring

lemma pairwiseSlopes_ne_nil (data : List ℚ) (h2 : 2 ≤ data.length) :
    pairwiseSlopes data ≠ [] := by
  apply List.ne_nil_of_mem (a := (data.getD 1 0 - data.getD 0 0) /
    ((1 : ℕ) - (0 : ℕ) : ℚ))
  unfold pairwiseSlopes
  rw [List.mem_flatMap]
  refine ⟨0, List.mem_range.mpr (by omega), ?_⟩
  rw [List.mem_map]
  refine ⟨1, List.mem_filter.mpr ⟨List.mem_range.mpr (by omega), by simp⟩, rfl⟩

lemma sens_slope_linear (a b : ℚ) (n : ℕ) (h2 : 2 ≤ n) :
    sens_slope ((List.range n).map (fun i : ℕ => a + b * (i : ℚ))) = some b := by
  unfold sens_slope
  apply npMedian_const
  · exact pairwiseSlopes_ne_nil _ (by simpa using h2)
  · exact pairwiseSlopes_linear a b n

/-- C5: Sen's slope on a perfectly linear sequence `data[i] = a + b·i` of
length ≥ 2 is exactly `b`, and `analyze` (with the default significance
level 0.05) on `[0, 1, 2, 3, 4, 5]` returns slope 1 and intercept 0 (the
intercept being the median of `data[k] - slope·k`). -/
theorem sens_slope_linear_exact :
    (∀ (a b : ℚ) (n : ℕ), 2 ≤ n →
      sens_slope ((List.range n).map (fun i : ℕ => a + b * (i : ℚ))) = some b) ∧
    (∃ r, analyze (1 / 20) [(0 : ℚ), 1, 2, 3, 4, 5] = some r ∧
      r.slope = 1 ∧ r.intercept = 0) := by
  constructor
  · exact sens_slope_linear
  · have hlist : ((List.range 6).map (fun i : ℕ => (0 : ℚ) + 1 * (i : ℚ))) =
        [(0 : ℚ), 1, 2, 3, 4, 5] := by
      norm_num [List.range_succ]
    have hslope : sens_slope [(0 : ℚ), 1, 2, 3, 4, 5] = some 1 := by
      rw [← hlist]
      exact sens_slope_linear 0 1 6 (by norm_num)
    simp only [analyze, hslope]
    refine ⟨_, rfl, rfl, ?_⟩
    show (npMedian ((List.range ([(0 : ℚ), 1, 2, 3, 4, 5].length)).map
      (fun k => [(0 : ℚ), 1, 2, 3, 4, 5].getD k 0 - 1 * (k : ℚ)))).getD 0 = 0
    have hmed : npMedian ((List.range ([(0 : ℚ), 1, 2, 3, 4, 5].length)).map
        (fun k => [(0 : ℚ), 1, 2, 3, 4, 5].getD k 0 - 1 * (k : ℚ))) = some 0 := by
      apply npMedian_const
      · simp
      · intro x hx
        rw [List.mem_map] at hx
        obtain ⟨k, hk, rfl⟩ := hx
        rw [List.mem_range] at hk
        simp only [List.length_cons, List.length_nil] at hk
        interval_cases k <;> norm_num
    rw [hmed]
    rfl

/-- Witness for the first part of C5 at `a = 3`, `b = 2`, `n = 4`. -/
theorem sens_slope_linear_exact_witness :
    (2 ≤ 4) ∧
    sens_slope ((List.range 4).map (fun i : ℕ => (3 : ℚ) + 2 * (i : ℚ))) = some 2 :=
  ⟨by norm_num, sens_slope_linear_exact.1 3 2 4 (by norm_num)⟩

/-- C10: Sen's slope is translation invariant — adding a constant `c` to
every element leaves every pairwise slope, hence their median, unchanged. -/
theorem sens_slope_translation_invariant (data : List ℚ) (c : ℚ)
    (h2 : 2 ≤ data.length) :
    sens_slope (data.map (fun x => x + c)) = sens_slope data := by
  unfold sens_slope
  congr 1
  unfold pairwiseSlopes
  rw [List.length_map]
  show ((List.range data.length).map _).flatten =
    ((List.range data.length).map _).flatten
  apply congrArg List.flatten
  apply List.map_congr_left
  intro i hi
  rw [List.mem_range] at hi
  apply List.map_congr_left
  intro j hj
  rw [List.mem_filter, List.mem_range] at hj
  have hjlt : j < data.length := hj.1
  have hmapj : (data.map (fun x => x + c)).getD j 0 = data.getD j 0 + c := by
    rw [List.getD_eq_getElem _ _ (by simpa using hjlt),
      List.getD_eq_getElem _ _ hjlt]
    simp
  have hmapi : (data.map (fun x => x + c)).getD i 0 = data.getD i 0 + c := by
    rw [List.getD_eq_getElem _ _ (by simpa using hi),
      List.getD_eq_getElem _ _ hi]
    simp
  rw [hmapj, hmapi]
  ring_nf

/-- Witness for C10 at `data = [1, 5]`, `c = 7`. -/
theorem sens_slope_translation_invariant_witness :
    (2 ≤ ([(1 : ℚ), 5] : List ℚ).length) ∧
    sens_slope (([(1 : ℚ), 5] : List ℚ).map (fun x => x + 7)) =
      sens_slope [(1 : ℚ), 5] :=
  ⟨by norm_num, sens_slope_translation_invariant [(1 : ℚ), 5] 7 (by norm_num)⟩

/-- C6: if the population standard deviation of the input is zero,
`detect_zscore` returns an empty list for any threshold; otherwise it flags
exactly the positions whose z-score `|value - mean| / std` exceeds the
threshold, reporting that score and the original value. -/
theorem detect_zscore_exact (data : List ℝ) (threshold : ℝ) :
    (stdR data = 0 → detect_zscore data threshold = []) ∧
    (stdR data ≠ 0 →
      (∀ a ∈ detect_zscore data threshold,
        a.index < data.length ∧ a.value = data.getD a.index 0 ∧
        a.score = |data.getD a.index 0 - meanR data| / stdR data ∧
        a.score > threshold) ∧
      (∀ i, i < data.length →
        |data.getD i 0 - meanR data| / stdR data > threshold →
        ∃ a ∈ detect_zscore data threshold, a.index = i)) := by
  constructor
  · intro h
    simp only [detect_zscore, if_pos h]
  · intro h
    constructor
    · intro a ha
      simp only [detect_zscore, if_neg h] at ha
      rw [List.mem_filterMap] at ha
      obtain ⟨i, hi, hfa⟩ := ha
      rw [List.mem_range] at hi
      by_cases hc : |data.getD i 0 - meanR data| / stdR data > threshold
      · rw [if_pos hc] at hfa
        obtain rfl := Option.some.inj hfa
        exact ⟨hi, rfl, rfl, hc⟩
      · rw [if_neg hc] at hfa
        exact absurd hfa (by simp)
    · intro i hilt hc
      simp only [detect_zscore, if_neg h]
      exact ⟨_, List.mem_filterMap.mpr
        ⟨i, List.mem_range.mpr hilt, by rw [if_pos hc]⟩, rfl⟩

/-- Witness for C6 at the constant input `[1, 1]` (standard deviation 0). -/
theorem detect_zscore_exact_witness :
    stdR [(1 : ℝ), 1] = 0 ∧ detect_zscore [(1 : ℝ), 1] 3 = [] := by
  have h : stdR [(1 : ℝ), 1] = 0 := by
    norm_num [stdR, meanR]
  exact ⟨h, (detect_zscore_exact [(1 : ℝ), 1] 3).1 h⟩

/-- C7: the randomized ensemble detector is deterministic — because the
estimator is constructed with the fixed seed `random_state=42`, the result
of `detect_isolation_forest` (and of `detect_all`) is independent of the
ambient pseudo-random state and of everything in the detector's state
except its `contamination`, so two calls on identical input produce
identical output. -/
theorem detect_isolation_forest_deterministic (r1 r2 : ℕ)
    (st1 st2 : AnomalyDetectorState) (data : List ℚ)
    (h : st1.contamination = st2.contamination) :
    detect_isolation_forest r1 st1 data = detect_isolation_forest r2 st2 data ∧
    detect_all r1 st1 data = detect_all r2 st2 data := by
  have hiso : detect_isolation_forest r1 st1 data =
      detect_isolation_forest r2 st2 data := by
    simp only [detect_isolation_forest, h]
  exact ⟨hiso, by simp only [detect_all, hiso]⟩

/-- Witness for C7: a fresh detector and a detector that has already run a
fit (same contamination, different stored state and different ambient
randomness) produce identical output on `[1, 2, 3, 4, 100]`. -/
theorem detect_isolation_forest_deterministic_witness :
    ((AnomalyDetector_init (1 / 4)).contamination =
      (⟨1 / 4, some (2 / 5, 7, [(3 : ℚ)])⟩ :
        AnomalyDetectorState).contamination) ∧
    detect_isolation_forest 0 (AnomalyDetector_init (1 / 4)) [(1 : ℚ), 2, 3, 4, 100] =
      detect_isolation_forest 99
        (⟨1 / 4, some (2 / 5, 7, [(3 : ℚ)])⟩ : AnomalyDetectorState)
        [(1 : ℚ), 2, 3, 4, 100] ∧
    detect_all 0 (AnomalyDetector_init (1 / 4)) [(1 : ℚ), 2, 3, 4, 100] =
      detect_all 99
        (⟨1 / 4, some (2 / 5, 7, [(3 : ℚ)])⟩ : AnomalyDetectorState)
        [(1 : ℚ), 2, 3, 4, 100] := by
  have h := detect_isolation_forest_deterministic 0 99
    (AnomalyDetector_init (1 / 4))
    (⟨1 / 4, some (2 / 5, 7, [(3 : ℚ)])⟩ : AnomalyDetectorState)
    [(1 : ℚ), 2, 3, 4, 100] rfl
  exact ⟨rfl, h.1, h.2⟩

/-- C8 (counterexample): an invocation of `detect_isolation_forest` does not
leave the detector object's state unchanged — it assigns the fitted model to
`self._isolation_forest`. -/
theorem detect_isolation_forest_mutates_state :
    (detect_isolation_forest 0 (AnomalyDetector_init (1 / 20)) [(1 : ℚ), 2, 3, 4]).2 ≠
      AnomalyDetector_init (1 / 20) := by
  intro h
  have h2 := congrArg AnomalyDetectorState.isolationForestAttr h
  simp [detect_isolation_forest, AnomalyDetector_init] at h2

/-- C8 (amended): every result depends only on the call's arguments and the
detector's `contamination` — `detect_iqr`, `detect_zscore` and the trend
operations read no instance state at all, and although
`detect_isolation_forest` overwrites the `_isolation_forest` attribute, it
leaves `contamination` unchanged, so no result depends on which calls ran
before: rerunning it after a previous fit returns exactly the previous
result, on any data. -/
theorem detector_results_depend_only_on_args (r1 r2 : ℕ)
    (st : AnomalyDetectorState) (data : List ℚ) :
    ((detect_isolation_forest r2 ((detect_isolation_forest r1 st data).2) data).1 =
      (detect_isolation_forest r1 st data).1) ∧
    ((detect_isolation_forest r1 st data).2.contamination = st.contamination) ∧
    (∀ d2 : List ℚ,
      (detect_isolation_forest r2 ((detect_isolation_forest r1 st data).2) d2).1 =
        (detect_isolation_forest r2 st d2).1) := by
  refine ⟨?_, rfl, fun d2 => ?_⟩ <;> simp only [detect_isolation_forest]

/-- C9: every anomaly record produced by any of the three detectors has a
position inside the input sequence, carries the original measurement at
that position, a non-negative score, and the method tag fixed by the
producing detector (`"IQR"`, `"Z-score"` — the spec's ZSCORE — and
`"IsolationForest"` — the spec's ENSEMBLE). -/
theorem anomaly_record_invariants :
    (∀ (data : List ℚ) (multiplier : ℚ) (l : List (Anomaly ℚ (WithTop ℚ))),
      detect_iqr data multiplier = some l → ∀ a ∈ l,
        a.index < data.length ∧ a.value = data.getD a.index 0 ∧
        (0 : WithTop ℚ) ≤ a.score ∧ a.method = "IQR") ∧
    (∀ (data : List ℝ) (threshold : ℝ), ∀ a ∈ detect_zscore data threshold,
        a.index < data.length ∧ a.value = data.getD a.index 0 ∧
        (0 : ℝ) ≤ a.score ∧ a.method = "Z-score") ∧
    (∀ (r : ℕ) (st : AnomalyDetectorState) (data : List ℚ),
      ∀ a ∈ (detect_isolation_forest r st data).1,
        a.index < data.length ∧ a.value = data.getD a.index 0 ∧
        (0 : ℚ) ≤ a.score ∧ a.method = "IsolationForest") := by
  refine ⟨?_, ?_, ?_⟩
  · intro data multiplier l hl a ha
    by_cases hn : data.length = 0
    · rw [detect_iqr, if_pos hn] at hl
      exact absurd hl (by simp)
    · have hne : data ≠ [] := by
        intro hd
        rw [hd] at hn
        simp at hn
      simp only [detect_iqr, if_neg hn] at hl
      obtain rfl := Option.some.inj hl
      rw [List.mem_filterMap] at ha
      obtain ⟨i, hi, hfa⟩ := ha
      rw [List.mem_range] at hi
      by_cases hc : data.getD i 0 < percentile data 25 - multiplier *
          (percentile data 75 - percentile data 25) ∨
          data.getD i 0 > percentile data 75 + multiplier *
          (percentile data 75 - percentile data 25)
      · rw [if_pos hc] at hfa
        obtain rfl := Option.some.inj hfa
        refine ⟨hi, rfl, ?_, rfl⟩
        show (0 : WithTop ℚ) ≤ fdiv |data.getD i 0 - (npMedian data).getD 0|
          (percentile data 75 - percentile data 25)
        have hq : 0 ≤ percentile data 75 - percentile data 25 := by
          have := percentile_mono data hne (by norm_num : (0 : ℚ) ≤ 25)
            (by norm_num : (25 : ℚ) ≤ 75) (by norm_num : (75 : ℚ) ≤ 100)
          linarith
        rcases eq_or_lt_of_le hq with he | hlt
        · rw [fdiv, if_pos he.symm]
          exact le_top
        · rw [fdiv, if_neg (ne_of_gt hlt)]
          exact_mod_cast div_nonneg (abs_nonneg _) hlt.le
      · rw [if_neg hc] at hfa
        exact absurd hfa (by simp)
  · intro data threshold a ha
    by_cases h : stdR data = 0
    · rw [detect_zscore, if_pos h] at ha
      simp at ha
    · simp only [detect_zscore, if_neg h] at ha
      rw [List.mem_filterMap] at ha
      obtain ⟨i, hi, hfa⟩ := ha
      rw [List.mem_range] at hi
      by_cases hc : |data.getD i 0 - meanR data| / stdR data > threshold
      · rw [if_pos hc] at hfa
        obtain rfl := Option.some.inj hfa
        refine ⟨hi, rfl, ?_, rfl⟩
        apply div_nonneg (abs_nonneg _)
        unfold stdR
        exact Real.sqrt_nonneg _
      · rw [if_neg hc] at hfa
        exact absurd hfa (by simp)
  · intro r st data a ha
    simp only [detect_isolation_forest] at ha
    rw [List.mem_filterMap] at ha
    obtain ⟨p, hp, hfa⟩ := ha
    by_cases hc : p.2.1 = -1
    · rw [if_pos hc] at hfa
      obtain rfl := Option.some.inj hfa
      have hlt := List.fst_lt_of_mem_enum hp
      rw [List.length_zip] at hlt
      have hlen1 : (isoFitPredict 42 st.contamination data).length =
          data.length := by
        simp [isoFitPredict, isoScoreSamples]
      have hlen2 : (isoScoreSamples 42 data).length = data.length := by
        simp [isoScoreSamples]
      rw [hlen1, hlen2, min_self] at hlt
      exact ⟨hlt, rfl, abs_nonneg _, rfl⟩
    · rw [if_neg hc] at hfa
      exact absurd hfa (by simp)

lemma detect_iqr_eval_concrete :
    detect_iqr [(0 : ℚ), 0, 0, 1] (3 / 2) =
      some [⟨3, 1, ((4 : ℚ) : WithTop ℚ), "IQR", none⟩] := by
  norm_num [detect_iqr, percentile, npMedian, sortQ, fdiv,
    List.insertionSort, List.orderedInsert, List.range_succ, List.filterMap,
    show Int.toNat 2 = 2 from rfl]

lemma detect_zscore_eval_concrete :
    detect_zscore [(0 : ℝ), 0, 2, 2] (1 / 2) =
      [⟨0, 0, 1, "Z-score", none⟩, ⟨1, 0, 1, "Z-score", none⟩,
        ⟨2, 2, 1, "Z-score", none⟩, ⟨3, 2, 1, "Z-score", none⟩] := by
  have hstd : stdR [(0 : ℝ), 0, 2, 2] = 1 := by
    norm_num [stdR, meanR, Real.sqrt_one]
  have hmean : meanR [(0 : ℝ), 0, 2, 2] = 1 := by
    norm_num [meanR]
  norm_num [detect_zscore, hstd, hmean, List.range_succ, List.filterMap]

lemma detect_iso_eval_concrete :
    (detect_isolation_forest 0 (AnomalyDetector_init (1 / 4))
        [(1 : ℚ), 2, 3, 4, 100]).1 =
      [⟨4, 100, 1, "IsolationForest", none⟩] := by
  have v0 : lcgN 42 0 = 1250496027 := rfl
  have v1 : lcgN 42 1 = 1116302264 := rfl
  have v2 : lcgN 42 2 = 1000676753 := rfl
  have v3 : lcgN 42 3 = 1668674806 := rfl
  have v4 : lcgN 42 4 = 908095735 := rfl
  have v5 : lcgN 42 5 = 71666532 := rfl
  have v6 : lcgN 42 6 = 896336333 := rfl
  have v7 : lcgN 42 7 = 1736731266 := rfl
  have v8 : lcgN 42 8 = 1314989459 := rfl
  have v9 : lcgN 42 9 = 1535244752 := rfl
  norm_num [detect_isolation_forest, AnomalyDetector_init, isoFitPredict,
    isoScoreSamples, randFrac, listMinQ, listMaxQ, sortQ,
    List.insertionSort, List.orderedInsert, isoTreeCount, List.range_succ,
    List.filterMap, List.enum, List.enumFrom, List.zip, List.zipWith,
    List.countP_cons, List.countP_nil, v0, v1, v2, v3, v4, v5, v6, v7, v8, v9,
    show Int.toNat 1 = 1 from rfl]

/-- Witness for C9: one concrete record from each detector — `detect_iqr`
on `[0, 0, 0, 1]`, `detect_zscore` on `[0, 0, 2, 2]` with threshold 0.5,
and `detect_isolation_forest` on `[1, 2, 3, 4, 100]`. -/
theorem anomaly_record_invariants_witness :
    (detect_iqr [(0 : ℚ), 0, 0, 1] (3 / 2) =
        some [⟨3, 1, ((4 : ℚ) : WithTop ℚ), "IQR", none⟩] ∧
      ((3 : ℕ) < ([(0 : ℚ), 0, 0, 1] : List ℚ).length ∧
        (1 : ℚ) = ([(0 : ℚ), 0, 0, 1] : List ℚ).getD 3 0 ∧
        (0 : WithTop ℚ) ≤ ((4 : ℚ) : WithTop ℚ) ∧ "IQR" = "IQR")) ∧
    (((⟨0, 0, 1, "Z-score", none⟩ : Anomaly ℝ ℝ) ∈
        detect_zscore [(0 : ℝ), 0, 2, 2] (1 / 2)) ∧
      ((0 : ℕ) < ([(0 : ℝ), 0, 2, 2] : List ℝ).length ∧
        (0 : ℝ) = ([(0 : ℝ), 0, 2, 2] : List ℝ).getD 0 0 ∧
        (0 : ℝ) ≤ 1 ∧ "Z-score" = "Z-score")) ∧
    (((⟨4, 100, 1, "IsolationForest", none⟩ : Anomaly ℚ ℚ) ∈
        (detect_isolation_forest 0 (AnomalyDetector_init (1 / 4))
          [(1 : ℚ), 2, 3, 4, 100]).1) ∧
      ((4 : ℕ) < ([(1 : ℚ), 2, 3, 4, 100] : List ℚ).length ∧
        (100 : ℚ) = ([(1 : ℚ), 2, 3, 4, 100] : List ℚ).getD 4 0 ∧
        (0 : ℚ) ≤ 1 ∧ "IsolationForest" = "IsolationForest")) := by
  have hmem1 : (⟨3, 1, ((4 : ℚ) : WithTop ℚ), "IQR", none⟩ :
      Anomaly ℚ (WithTop ℚ)) ∈ [(⟨3, 1, ((4 : ℚ) : WithTop ℚ), "IQR", none⟩ :
      Anomaly ℚ (WithTop ℚ))] := List.mem_singleton.mpr rfl
  have h1 := anomaly_record_invariants.1 [(0 : ℚ), 0, 0, 1] (3 / 2)
    [⟨3, 1, ((4 : ℚ) : WithTop ℚ), "IQR", none⟩] detect_iqr_eval_concrete
    _ hmem1
  have hmem2 : (⟨0, 0, 1, "Z-score", none⟩ : Anomaly ℝ ℝ) ∈
      detect_zscore [(0 : ℝ), 0, 2, 2] (1 / 2) := by
    rw [detect_zscore_eval_concrete]
    simp
  have h2 := anomaly_record_invariants.2.1 [(0 : ℝ), 0, 2, 2] (1 / 2)
    _ hmem2
  have hmem3 : (⟨4, 100, 1, "IsolationForest", none⟩ : Anomaly ℚ ℚ) ∈
      (detect_isolation_forest 0 (AnomalyDetector_init (1 / 4))
        [(1 : ℚ), 2, 3, 4, 100]).1 := by
    rw [detect_iso_eval_concrete]
    simp
  have h3 := anomaly_record_invariants.2.2 0 (AnomalyDetector_init (1 / 4))
    [(1 : ℚ), 2, 3, 4, 100] _ hmem3
  exact ⟨⟨detect_iqr_eval_concrete, h1.1, h1.2.1, h1.2.2.1, h1.2.2.2⟩,
    ⟨hmem2, h2.1, h2.2.1, h2.2.2.1, h2.2.2.2⟩,
    ⟨hmem3, h3.1, h3.2.1, h3.2.2.1, h3.2.2.2⟩⟩

end ClimateCore
